import Mathlib

/-!
Shallow embedding of the AGLStats pool parser (main.go) and proofs about it.

Machine floats in the source are modelled as exact rationals; Go maps are
modelled either as functions into Option or as association lists with unique
keys; the badger store, the Scryfall endpoints and the network are modelled
as explicit oracles threaded through the functions that use them.
-/

/- ---------------------------------------------------------------------
   Constants (main.go lines 46-90)
--------------------------------------------------------------------- -/

def webRetires : ℕ := 3

def webRetryMs : ℕ := 500

def seventeenLandsDrawnThreshold : ℕ := 100

def deckStrengthCardsToConsider : ℕ := 60

def mtg2CDecks : List String :=
  ["WU", "WB", "WR", "WG", "UB", "UR", "UG", "BR", "BG", "RG"]

def mtg3CDecks : List String :=
  ["WUB", "WUR", "WUG", "BRW", "GWB", "WRG", "UBR", "UBG", "RGU", "BRG"]

def seventeenLands3CSets : List String := ["SNC"]

def currentSet : String := "HBG"

/- ---------------------------------------------------------------------
   Performance data: prevalence threshold and the recorded win rate
   (getCardPrevalenceThreshold, main.go 724-736; loadCardPerformanceData,
   main.go 365-373)
--------------------------------------------------------------------- -/

def getCardPrevalenceThreshold (rarity : String) : ℕ :=
  if rarity = "uncommon" then seventeenLandsDrawnThreshold / 2
  else if rarity = "rare" then seventeenLandsDrawnThreshold / 4
  else if rarity = "mythic" then seventeenLandsDrawnThreshold / 6
  else seventeenLandsDrawnThreshold

/-- The fields of a 17lands CardPerformance record that the prevalence
filter reads (main.go 1041-1064, restricted to the used fields). -/
structure CardPerfRecord where
  everDrawnGameCount : ℕ
  everDrawnWinRate : ℚ
  name : String
  rarity : String
deriving DecidableEq

/-- The win rate loadCardPerformanceData records for one card record
(main.go 367-373): the observed ever-drawn win rate when the ever-drawn
game count strictly exceeds the rarity threshold, otherwise 0. -/
def recordedWinRate (r : CardPerfRecord) : ℚ :=
  if r.everDrawnGameCount > getCardPrevalenceThreshold r.rarity then
    r.everDrawnWinRate
  else 0

/- ---------------------------------------------------------------------
   Performance cache key (getCardPerformanceData, main.go 388-393)
--------------------------------------------------------------------- -/

/-- fmt.Sprintf of the `_%d_%d_%d` date component of the key. -/
def dateKeyOf (year month day : ℕ) : String :=
  "_" ++ toString year ++ "_" ++ toString month ++ "_" ++ toString day

/-- The badger key getCardPerformanceData computes (main.go 389-393):
the date component is appended exactly when the set is the current one. -/
def perfDbKey (setCode deckId : String) (year month day : ℕ) : String :=
  "17lands_" ++ setCode ++ "_" ++ deckId ++
    (if setCode = currentSet then dateKeyOf year month day else "")

/- ---------------------------------------------------------------------
   Card name normalization (getCard, main.go 299-302)
--------------------------------------------------------------------- -/

def alchemyCutset : List Char := ['A', '-']

/-- Go strings.Trim: removes every leading and every trailing character
that is contained in the cutset. -/
def goTrim (s : String) (cutset : List Char) : String :=
  (((s.data.dropWhile (fun c => cutset.contains c)).reverse.dropWhile
      (fun c => cutset.contains c)).reverse).asString

/-- Go strings.HasPrefix(s, "A-"). -/
def alchemyMarked (s : String) : Bool :=
  List.isPrefixOf "A-".data s.data

/-- The name under which getCard reads and writes the durable store
(main.go 299-302): if the name carries the "A-" alchemy marker,
strings.Trim(name, "A-") is applied; otherwise the name is unchanged. -/
def stripAlchemy (cardName : String) : String :=
  if alchemyMarked cardName then goTrim cardName alchemyCutset else cardName

/- ---------------------------------------------------------------------
   Durable store and the card resolver (getCard, main.go 294-321;
   scryfallGet, main.go 323-343)

   The store is modelled by its contract (spec section 6): get/set on
   string keys.  The two Scryfall lookup strategies (set-scoped uri and
   base uri) are oracles from the looked-up name to an optional payload.
   The raw payload that json.Unmarshal would parse is returned; parsing
   is a pure function of that payload and is not modelled further.
--------------------------------------------------------------------- -/

def dbGet (db : String → Option String) (key : String) : Option String :=
  db key

def dbSet (db : String → Option String) (key value : String) :
    String → Option String :=
  fun k => if k = key then some value else db k

/-- scryfallGet (main.go 323-343): try the set-scoped uri first, fall back
to the base uri.  Returns the payload (if any) and the number of remote
lookups issued. -/
def scryfallGet (setScoped unscoped : String → Option String)
    (cardName : String) : Option String × ℕ :=
  match setScoped cardName with
  | some j => (some j, 1)
  | none =>
    match unscoped cardName with
    | some j => (some j, 2)
    | none => (none, 2)

/-- The observable outcome of one getCard call: the payload handed to
json.Unmarshal (none on failure), the store after the call, and how many
remote lookups and store writes the call performed. -/
structure GetCardResult where
  payload : Option String
  db : String → Option String
  remoteCalls : ℕ
  dbWrites : ℕ

/-- getCard (main.go 294-321): normalize the name, try the store, on a
miss run the two-tier Scryfall fallback and persist a successful payload
under the normalized name. -/
def getCard (setScoped unscoped : String → Option String)
    (db : String → Option String) (cardName : String) : GetCardResult :=
  let key := stripAlchemy cardName
  match dbGet db key with
  | some j => ⟨some j, db, 0, 0⟩
  | none =>
    match scryfallGet setScoped unscoped key with
    | (some j, n) => ⟨some j, dbSet db key j, n, 1⟩
    | (none, n) => ⟨none, db, n, 0⟩

/- ---------------------------------------------------------------------
   Resilient fetcher (getWebResponseString, main.go 842-858;
   innerGetWebResponseString, main.go 861-874)

   The i-th http.Get outcome is an oracle value: a success body, a
   non-200 status code, or a transport failure.  In the source a
   transport failure reaches checkError, which panics and aborts the
   whole run; this is modelled by the panicked result.
--------------------------------------------------------------------- -/

inductive WebAttempt where
  | success (body : String)
  | badStatus (code : ℕ)
  | transportFail
deriving DecidableEq

inductive WebResult where
  | ok (body : String)
  | transient (code : ℕ)
  | panicked
deriving DecidableEq

def WebResult.isTransientErr : WebResult → Bool
  | .transient _ => true
  | _ => false

/-- The trace of one getWebResponseString call: its result, the number of
http.Get calls made, and the list of sleep durations (ms) taken. -/
structure WebFetchTrace where
  result : WebResult
  attemptsMade : ℕ
  sleeps : List ℕ
deriving DecidableEq

/-- The retry loop of getWebResponseString (main.go 845-854).  `last` is
the error held in `err` entering the iteration; with webRetires = 3 it is
overwritten before it can be returned, matching the Go code where the
initial nil error is unreachable on the exhausted path. -/
def webTry (attempts : ℕ → WebAttempt) (i : ℕ) :
    ℕ → WebResult → WebResult × ℕ × List ℕ
  | 0, last => (last, 0, [])
  | fuel + 1, _ =>
    match attempts i with
    | .success b => (.ok b, 1, [])
    | .transportFail => (.panicked, 1, [])
    | .badStatus c =>
      let r := webTry attempts (i + 1) fuel (.transient c)
      (r.1, r.2.1 + 1, webRetryMs :: r.2.2)

def getWebResponseString (attempts : ℕ → WebAttempt) : WebFetchTrace :=
  let r := webTry attempts 0 webRetires (.transient 0)
  ⟨r.1, r.2.1, r.2.2⟩

/- ---------------------------------------------------------------------
   Pool flattening (SealedDeck.flatten, main.go 258-274)

   The Go map[string]DeckSlot is modelled as an association list with
   unique keys; the fold visits deck ++ sideboard in order.
--------------------------------------------------------------------- -/

structure SDCard where
  name : String
  count : ℕ
deriving DecidableEq

structure SealedDeck where
  deck : List SDCard
  sideboard : List SDCard
deriving DecidableEq

/-- Association-list read of the flattened map (first entry wins; the
flatten invariant keeps keys unique, so this is the map lookup). -/
def alookup (n : String) : List (String × ℕ) → Option ℕ
  | [] => none
  | p :: ps => if p.1 = n then some p.2 else alookup n ps

/-- One step of the flatten fold (main.go 264-271): a seen name has its
amount increased in place, an unseen name is appended. -/
def flattenInsert (m : List (String × ℕ)) (c : SDCard) : List (String × ℕ) :=
  match alookup c.name m with
  | some v => m.map (fun p => if p.1 = c.name then (p.1, v + c.count) else p)
  | none => m ++ [(c.name, c.count)]

/-- SealedDeck.flatten (main.go 258-274). -/
def flatten (d : SealedDeck) : List (String × ℕ) :=
  (d.deck ++ d.sideboard).foldl flattenInsert []

/-- Total count of a name across a raw entry list. -/
def occCount (l : List SDCard) (n : String) : ℕ :=
  ((l.filter (fun c => c.name = n)).map SDCard.count).sum

/-- Whether a name occurs at all in a raw entry list. -/
def occNames (l : List SDCard) (n : String) : Prop :=
  ∃ c ∈ l, c.name = n

instance (l : List SDCard) (n : String) : Decidable (occNames l n) :=
  List.decidableBEx _ l

/- ---------------------------------------------------------------------
   Strength scorer (calculateStrength, main.go 594-647; getDecks,
   main.go 650-658)
--------------------------------------------------------------------- -/

/-- getDecks (main.go 650-658): the ten 2-colour decks always, the ten
3-colour decks additionally when the set uses a 3-colour format. -/
def getDecks (setCode : String) : List String :=
  mtg2CDecks ++ (if seventeenLands3CSets.contains setCode then mtg3CDecks else [])

/-- A DeckSlot (main.go 25-29); the resolved card record is not read by
flatten or calculateStrength and is omitted. -/
structure DeckSlot where
  amount : ℕ
  cardName : String
deriving DecidableEq

structure CardStrength where
  cardName : String
  strength : ℚ
deriving DecidableEq

/-- The descending comparison calculateStrength sorts card strengths by
(main.go 619-621). -/
def csGE (a b : CardStrength) : Prop := b.strength ≤ a.strength

instance : DecidableRel csGE :=
  fun a b => inferInstanceAs (Decidable (b.strength ≤ a.strength))

instance : IsTrans CardStrength csGE :=
  ⟨fun _ _ _ h₁ h₂ => le_trans h₂ h₁⟩

instance : IsTotal CardStrength csGE :=
  ⟨fun a b => le_total b.strength a.strength⟩

/-- Descending comparison on plain rationals. -/
def geQ (a b : ℚ) : Prop := b ≤ a

instance : DecidableRel geQ :=
  fun a b => inferInstanceAs (Decidable (b ≤ a))

instance : IsTrans ℚ geQ := ⟨fun _ _ _ h₁ h₂ => le_trans h₂ h₁⟩

instance : IsTotal ℚ geQ := ⟨fun a b => le_total b a⟩

instance : IsAntisymm ℚ geQ := ⟨fun _ _ h₁ h₂ => le_antisymm h₂ h₁⟩

/-- The per-copy expansion of a pool against one archetype's strength map
(main.go 603-616): each slot contributes amount entries, each carrying the
map's win rate for the name, 0 when the name is absent. -/
def expandCardStrengths (cards : List DeckSlot)
    (strengthMap : String → Option ℚ) : List CardStrength :=
  (cards.map (fun c =>
    List.replicate c.amount ⟨c.cardName, (strengthMap c.cardName).getD 0⟩)).flatten

/-- The raw strength of one archetype (the body of the deck loop of
calculateStrength, main.go 599-631): sort the expanded entries descending
and sum the first min(60, total) of them. -/
def deckStrength (cards : List DeckSlot)
    (strengthMap : String → Option ℚ) : ℚ :=
  let cardStrengths := expandCardStrengths cards strengthMap
  let sorted := List.insertionSort csGE cardStrengths
  let maxIndex :=
    if cardStrengths.length < deckStrengthCardsToConsider then
      cardStrengths.length
    else deckStrengthCardsToConsider
  ((sorted.take maxIndex).map CardStrength.strength).sum

/-- The deckStrengths map of calculateStrength (main.go 596-632), as the
list of (deckId, strength) pairs over getDecks currentSet.  The deck ids
are pairwise distinct, so this carries the same entries as the Go map. -/
def deckStrengthsList (cards : List DeckSlot)
    (cardStrengthByDeck : String → String → Option ℚ) : List (String × ℚ) :=
  (getDecks currentSet).map
    (fun deckId => (deckId, deckStrength cards (cardStrengthByDeck deckId)))

/-- The vector v of calculateStrength (main.go 635-638): allocated with
len(deckStrengths) zeroes, then the strengths are appended.  The append
order (Go map iteration) is arbitrary; every theorem below reads v only
through its descending sort, which is order-independent. -/
def strengthVector (cards : List DeckSlot)
    (cardStrengthByDeck : String → String → Option ℚ) : List ℚ :=
  let ds := deckStrengthsList cards cardStrengthByDeck
  List.replicate ds.length 0 ++ ds.map Prod.snd

def sortDescQ (l : List ℚ) : List ℚ := List.insertionSort geQ l

/-- Go's int(f) conversion of a float: truncation toward zero. -/
def goFloatToInt (q : ℚ) : ℤ :=
  if 0 ≤ q then ⌊q⌋ else ⌈q⌉

/-- calculateStrength (main.go 594-647): weighted top-3 of the sorted
vector, scaled by 100 and converted with Go's truncating int(). -/
def calculateStrength (cards : List DeckSlot)
    (cardStrengthByDeck : String → String → Option ℚ) : ℤ :=
  let v := sortDescQ (strengthVector cards cardStrengthByDeck)
  goFloatToInt
    ((v.getD 0 0 + v.getD 1 0 * (8 / 10 : ℚ) + v.getD 2 0 * (4 / 10 : ℚ)) * 100)

/-- Modelled from the spec's words for the refinement comparison of claim
C1 only: the same combination but rounded to the nearest integer. -/
def calculateStrengthRoundedSpec (cards : List DeckSlot)
    (cardStrengthByDeck : String → String → Option ℚ) : ℤ :=
  let v := sortDescQ (strengthVector cards cardStrengthByDeck)
  round
    ((v.getD 0 0 + v.getD 1 0 * (8 / 10 : ℚ) + v.getD 2 0 * (4 / 10 : ℚ)) * 100)

/- ---------------------------------------------------------------------
   Concrete inputs used by the witnesses and counterexamples
--------------------------------------------------------------------- -/

def exPool : List DeckSlot := [⟨1, "Shock"⟩]

/-- A strength table where only archetype WU knows Shock, at 21/32
(= 0.65625, exactly representable as a binary float). -/
def exMap : String → String → Option ℚ :=
  fun d c => if d = "WU" ∧ c = "Shock" then some (21 / 32) else none

def exCards : List DeckSlot := [⟨2, "Shock"⟩]

def exSM : String → Option ℚ :=
  fun c => if c = "Shock" then some (13 / 20) else none

def exSortedCS : List CardStrength :=
  [⟨"Shock", 13 / 20⟩, ⟨"Shock", 13 / 20⟩]

def exSetOracle : String → Option String :=
  fun k => if k = "Shock" then some "setJson" else none

def exBaseOracle : String → Option String :=
  fun _ => none

def exEmptyDb : String → Option String := fun _ => none

def exAttempts : ℕ → WebAttempt :=
  fun i => if i = 0 then .badStatus 503 else .success "body"

def exDeckA : SealedDeck := ⟨[⟨"A", 2⟩, ⟨"B", 1⟩], [⟨"A", 3⟩]⟩

def exDeckB : SealedDeck := ⟨[⟨"A", 3⟩], [⟨"B", 1⟩, ⟨"A", 2⟩]⟩

/- ---------------------------------------------------------------------
   Theorems
--------------------------------------------------------------------- -/

/-- Claim C7 fails as literally stated: the "if and only if" direction
breaks when the observed ever-drawn win rate is itself 0.  This common
card has everDrawnGameCount exactly equal to its threshold (100), so the
count is not strictly greater, yet the recorded win rate (0) still equals
the observed rate (0). -/
theorem recordedWinRate_iff_fails :
    recordedWinRate ⟨100, 0, "Static Orb", "common"⟩ =
      (⟨100, 0, "Static Orb", "common"⟩ : CardPerfRecord).everDrawnWinRate ∧
    ¬ ((⟨100, 0, "Static Orb", "common"⟩ : CardPerfRecord).everDrawnGameCount >
        getCardPrevalenceThreshold
          (⟨100, 0, "Static Orb", "common"⟩ : CardPerfRecord).rarity) := by
  exact ⟨by decide, by decide⟩

/-- Claim C7 (amended): the recorded win rate equals the observed
ever-drawn win rate when the record's ever-drawn game count is strictly
greater than its rarity threshold, and is 0 otherwise; the thresholds
against the base count B = seventeenLandsDrawnThreshold are common = B,
uncommon = B/2, rare = B/4, mythic = B/6 with integer division; in
particular a count exactly equal to the threshold records a win rate
of 0. -/
theorem recordedWinRate_prevalence (r : CardPerfRecord) :
    (r.everDrawnGameCount > getCardPrevalenceThreshold r.rarity →
      recordedWinRate r = r.everDrawnWinRate) ∧
    (r.everDrawnGameCount ≤ getCardPrevalenceThreshold r.rarity →
      recordedWinRate r = 0) ∧
    getCardPrevalenceThreshold "common" = seventeenLandsDrawnThreshold ∧
    getCardPrevalenceThreshold "uncommon" = seventeenLandsDrawnThreshold / 2 ∧
    getCardPrevalenceThreshold "rare" = seventeenLandsDrawnThreshold / 4 ∧
    getCardPrevalenceThreshold "mythic" = seventeenLandsDrawnThreshold / 6 ∧
    (r.everDrawnGameCount = getCardPrevalenceThreshold r.rarity →
      recordedWinRate r = 0) := by
  refine ⟨?_, ?_, by decide, by decide, by decide, by decide, ?_⟩
  · intro h
    rw [recordedWinRate, if_pos h]
  · intro h
    rw [recordedWinRate, if_neg (by omega)]
  · intro h
    rw [recordedWinRate, if_neg (by omega)]

theorem recordedWinRate_prevalence_witness :
    (⟨50, 1/2, "Fog", "uncommon"⟩ : CardPerfRecord).everDrawnGameCount =
      getCardPrevalenceThreshold
        (⟨50, 1/2, "Fog", "uncommon"⟩ : CardPerfRecord).rarity ∧
    recordedWinRate ⟨50, 1/2, "Fog", "uncommon"⟩ = 0 :=
  ⟨by decide,
   (recordedWinRate_prevalence ⟨50, 1/2, "Fog", "uncommon"⟩).2.2.2.2.2.2 (by decide)⟩

/-- Claim C3 fails as literally stated: the key getCardPerformanceData
computes for the active set starts with "17lands_", not "perf_". -/
theorem perfDbKey_not_perf :
    perfDbKey "HBG" "WU" 2026 10 11 = "17lands_HBG_WU_2026_10_11" ∧
    List.isPrefixOf "perf_".data (perfDbKey "HBG" "WU" 2026 10 11).data = false := by
  exact ⟨by decide, by decide⟩

/-- Claim C3 (amended): the cache key is "17lands_" + set + "_" +
archetype, with today's calendar date appended if and only if the set
equals the current active set; two calls for the active set on the same
calendar day and same archetype produce the same key, and a call for a
non-active set produces a key with no date component regardless of day. -/
theorem perfDbKey_shape (setCode deckId : String) (y m d : ℕ) :
    (setCode = currentSet →
      perfDbKey setCode deckId y m d =
        "17lands_" ++ setCode ++ "_" ++ deckId ++ dateKeyOf y m d) ∧
    (setCode ≠ currentSet →
      perfDbKey setCode deckId y m d = "17lands_" ++ setCode ++ "_" ++ deckId) ∧
    (∀ y' m' d' : ℕ, y = y' → m = m' → d = d' →
      perfDbKey setCode deckId y m d = perfDbKey setCode deckId y' m' d') := by
  refine ⟨fun h => ?_, fun h => ?_, fun y' m' d' hy hm hd => by rw [hy, hm, hd]⟩
  · rw [perfDbKey, if_pos h]
  · rw [perfDbKey, if_neg h]
    simp

theorem perfDbKey_shape_witness :
    perfDbKey "HBG" "WU" 2026 10 11 =
      "17lands_" ++ "HBG" ++ "_" ++ "WU" ++ dateKeyOf 2026 10 11 ∧
    perfDbKey "SNC" "WU" 2026 10 11 = "17lands_" ++ "SNC" ++ "_" ++ "WU" :=
  ⟨(perfDbKey_shape "HBG" "WU" 2026 10 11).1 rfl,
   (perfDbKey_shape "SNC" "WU" 2026 10 11).2.1 (by decide)⟩

/-- Claim C5 is right and the code is wrong: getCard means to strip the
"A-" alchemy marker (its comment says "Remove the Alchemy designation
from cards") but calls strings.Trim with the cutset "A-", which removes
every leading and trailing 'A' and '-' character.  "A-Abrade" is
therefore looked up under "brade" while the unprefixed "Abrade" is looked
up under "Abrade": the two forms do not share a cache key. -/
theorem stripAlchemy_trim_bug :
    stripAlchemy "A-Abrade" = "brade" ∧
    stripAlchemy "Abrade" = "Abrade" ∧
    stripAlchemy "A-Abrade" ≠ stripAlchemy "Abrade" :=
  ⟨by decide, by decide, by decide⟩

lemma webTry_attempts_le (a : ℕ → WebAttempt) :
    ∀ (fuel i : ℕ) (last : WebResult), (webTry a i fuel last).2.1 ≤ fuel := by
  intro fuel
  induction fuel with
  | zero => intro i last; simp [webTry]
  | succ n ih =>
    intro i last
    cases h : a i <;> simp [webTry, h]
    exact ih (i + 1) (.transient _)

lemma webTry_sleeps_fixed (a : ℕ → WebAttempt) :
    ∀ (fuel i : ℕ) (last : WebResult) (s : ℕ),
      s ∈ (webTry a i fuel last).2.2 → s = webRetryMs := by
  intro fuel
  induction fuel with
  | zero => intro i last s hs; simp [webTry] at hs
  | succ n ih =>
    intro i last s hs
    cases h : a i <;> simp [webTry, h] at hs
    rcases hs with hs | hs
    · exact hs
    · exact ih (i + 1) (.transient _) s hs

/-- Claim C6 fails as literally stated: on a transport failure
innerGetWebResponseString reaches checkError, which panics and aborts the
whole run — no TransientError is returned to the caller. -/
theorem getWebResponseString_transport_panics :
    (getWebResponseString (fun _ => .transportFail)).result = .panicked ∧
    ((getWebResponseString (fun _ => .transportFail)).result).isTransientErr
      = false :=
  ⟨rfl, rfl⟩

/-- Claim C6 (amended): getWebResponseString makes at most 3 attempts
with a fixed 500 ms inter-attempt delay (no exponential backoff), returns
the response body on the first success, returns a TransientError to its
caller on non-success status — the last such error when all attempts
fail — but on a transport failure it panics (aborting the run) instead
of returning an error. -/
theorem getWebResponseString_retries (a : ℕ → WebAttempt) :
    (getWebResponseString a).attemptsMade ≤ webRetires ∧
    (∀ b, a 0 = .success b →
      getWebResponseString a = ⟨.ok b, 1, []⟩) ∧
    (∀ c₀ b, a 0 = .badStatus c₀ → a 1 = .success b →
      getWebResponseString a = ⟨.ok b, 2, [webRetryMs]⟩) ∧
    (∀ c₀ c₁ b, a 0 = .badStatus c₀ → a 1 = .badStatus c₁ →
      a 2 = .success b →
      getWebResponseString a = ⟨.ok b, 3, [webRetryMs, webRetryMs]⟩) ∧
    (∀ c₀ c₁ c₂, a 0 = .badStatus c₀ → a 1 = .badStatus c₁ →
      a 2 = .badStatus c₂ →
      getWebResponseString a =
        ⟨.transient c₂, 3, [webRetryMs, webRetryMs, webRetryMs]⟩) ∧
    (∀ s ∈ (getWebResponseString a).sleeps, s = webRetryMs) ∧
    (a 0 = .transportFail → (getWebResponseString a).result = .panicked) := by
  refine ⟨webTry_attempts_le a webRetires 0 (.transient 0), ?_, ?_, ?_, ?_,
    fun s hs => webTry_sleeps_fixed a webRetires 0 (.transient 0) s hs, ?_⟩
  · intro b h0
    simp [getWebResponseString, webRetires, webTry, h0]
  · intro c₀ b h0 h1
    simp [getWebResponseString, webRetires, webTry, h0, h1]
  · intro c₀ c₁ b h0 h1 h2
    simp [getWebResponseString, webRetires, webTry, h0, h1, h2]
  · intro c₀ c₁ c₂ h0 h1 h2
    simp [getWebResponseString, webRetires, webTry, h0, h1, h2]
  · intro h0
    simp [getWebResponseString, webRetires, webTry, h0]

theorem getWebResponseString_retries_witness :
    exAttempts 0 = .badStatus 503 ∧ exAttempts 1 = .success "body" ∧
    getWebResponseString exAttempts = ⟨.ok "body", 2, [webRetryMs]⟩ :=
  ⟨rfl, rfl,
   (getWebResponseString_retries exAttempts).2.2.1 503 "body" rfl rfl⟩

/-- Claim C4: card resolution is cache-aside with a two-tier remote
fallback: a store hit returns the cached payload with zero remote
lookups and zero writes; on a miss the set-scoped lookup is tried first
and the unscoped lookup only if it fails; a success from either tier is
written exactly once to the store under the normalized name, so a second
resolution of the same name issues zero remote lookups. -/
theorem getCard_cache_aside (setScoped unscoped db : String → Option String)
    (cardName : String) :
    (∀ p, dbGet db (stripAlchemy cardName) = some p →
      getCard setScoped unscoped db cardName = ⟨some p, db, 0, 0⟩) ∧
    (dbGet db (stripAlchemy cardName) = none →
      ∀ p, setScoped (stripAlchemy cardName) = some p →
        getCard setScoped unscoped db cardName =
          ⟨some p, dbSet db (stripAlchemy cardName) p, 1, 1⟩) ∧
    (dbGet db (stripAlchemy cardName) = none →
      setScoped (stripAlchemy cardName) = none →
      ∀ p, unscoped (stripAlchemy cardName) = some p →
        getCard setScoped unscoped db cardName =
          ⟨some p, dbSet db (stripAlchemy cardName) p, 2, 1⟩) ∧
    (∀ p, (getCard setScoped unscoped db cardName).payload = some p →
      (getCard setScoped unscoped
        (getCard setScoped unscoped db cardName).db cardName).remoteCalls
        = 0) := by
  refine ⟨?_, ?_, ?_, ?_⟩
  · intro p hp
    simp [getCard, hp]
  · intro hmiss p hset
    simp [getCard, scryfallGet, hmiss, hset]
  · intro hmiss hset p hbase
    simp [getCard, scryfallGet, hmiss, hset, hbase]
  · intro p hp
    rcases hdb : db (stripAlchemy cardName) with _ | j
    · rcases hset : setScoped (stripAlchemy cardName) with _ | j
      · rcases hbase : unscoped (stripAlchemy cardName) with _ | j
        · simp [getCard, scryfallGet, dbGet, hdb, hset, hbase] at hp
        · simp [getCard, scryfallGet, dbGet, dbSet, hdb, hset, hbase]
      · simp [getCard, scryfallGet, dbGet, dbSet, hdb, hset]
    · simp [getCard, dbGet, hdb]

theorem getCard_cache_aside_witness :
    dbGet exEmptyDb (stripAlchemy "Shock") = none ∧
    exSetOracle (stripAlchemy "Shock") = some "setJson" ∧
    getCard exSetOracle exBaseOracle exEmptyDb "Shock" =
      ⟨some "setJson", dbSet exEmptyDb (stripAlchemy "Shock") "setJson", 1, 1⟩ :=
  ⟨rfl, by decide,
   (getCard_cache_aside exSetOracle exBaseOracle exEmptyDb "Shock").2.1
     rfl "setJson" (by decide)⟩

lemma alookup_append_of_none (n : String) (m₁ m₂ : List (String × ℕ))
    (h : alookup n m₁ = none) : alookup n (m₁ ++ m₂) = alookup n m₂ := by
  induction m₁ with
  | nil => rfl
  | cons p ps ih =>
    by_cases hp : p.1 = n
    · simp [alookup, hp] at h
    · simp only [alookup, hp, if_neg, List.cons_append] at h ⊢
      exact ih h

lemma alookup_append_of_some (n : String) (m₁ m₂ : List (String × ℕ)) (v : ℕ)
    (h : alookup n m₁ = some v) : alookup n (m₁ ++ m₂) = some v := by
  induction m₁ with
  | nil => simp [alookup] at h
  | cons p ps ih =>
    by_cases hp : p.1 = n
    · simp only [alookup, hp, if_pos] at h ⊢
      exact h
    · simp only [alookup, hp, if_neg, List.cons_append] at h ⊢
      exact ih h

lemma alookup_eq_none_iff (n : String) (m : List (String × ℕ)) :
    alookup n m = none ↔ n ∉ m.map Prod.fst := by
  induction m with
  | nil => simp [alookup]
  | cons p ps ih =>
    by_cases hp : p.1 = n
    · simp [alookup, hp]
    · have hp' : ¬ n = p.1 := fun h => hp h.symm
      simp [alookup, hp, hp', ih]

lemma alookup_map_update_self (m : List (String × ℕ)) (k : String)
    (v w : ℕ) (h : alookup k m = some v) :
    alookup k (m.map (fun p => if p.1 = k then (p.1, w) else p)) = some w := by
  induction m with
  | nil => simp [alookup] at h
  | cons p ps ih =>
    by_cases hp : p.1 = k
    · simp [alookup, hp]
    · simp only [alookup, hp, if_neg] at h
      simp [alookup, hp, ih h]

lemma alookup_map_update_other (m : List (String × ℕ)) (k n : String)
    (w : ℕ) (hnk : n ≠ k) :
    alookup n (m.map (fun p => if p.1 = k then (p.1, w) else p))
      = alookup n m := by
  induction m with
  | nil => rfl
  | cons p ps ih =>
    have hkn : ¬ k = n := fun h => hnk h.symm
    by_cases hp : p.1 = k
    · have hpn : ¬ p.1 = n := fun h => hkn (hp ▸ h)
      simp [alookup, hp, hpn, hkn, hnk, ih]
    · by_cases hpn : p.1 = n <;> simp [alookup, hp, hpn, hkn, hnk, ih]

lemma keys_map_update (m : List (String × ℕ)) (k : String) (w : ℕ) :
    (m.map (fun p => if p.1 = k then (p.1, w) else p)).map Prod.fst
      = m.map Prod.fst := by
  induction m with
  | nil => rfl
  | cons p ps ih =>
    by_cases hp : p.1 = k <;> simp [hp, ih]

lemma alookup_flattenInsert (m : List (String × ℕ)) (c : SDCard) (n : String) :
    alookup n (flattenInsert m c) =
      if n = c.name then some ((alookup n m).getD 0 + c.count)
      else alookup n m := by
  by_cases hn : n = c.name
  · subst hn
    rcases h : alookup c.name m with _ | v
    · rw [flattenInsert]
      simp only [h]
      rw [alookup_append_of_none c.name m _ h]
      simp [alookup]
    · rw [flattenInsert]
      simp only [h]
      rw [alookup_map_update_self m c.name v (v + c.count) h]
      simp
  · rw [flattenInsert]
    rcases h : alookup c.name m with _ | v
    · rw [if_neg hn]
      rcases h' : alookup n m with _ | v'
      · rw [alookup_append_of_none n m _ h']
        have hcn : ¬ c.name = n := fun hh => hn hh.symm
        simp [alookup, hcn]
      · exact alookup_append_of_some n m _ v' h'
    · rw [if_neg hn]
      exact alookup_map_update_other m c.name n (v + c.count) hn

lemma nodup_flattenInsert (m : List (String × ℕ)) (c : SDCard)
    (h : (m.map Prod.fst).Nodup) :
    ((flattenInsert m c).map Prod.fst).Nodup := by
  rw [flattenInsert]
  rcases hc : alookup c.name m with _ | v
  · have hn : c.name ∉ m.map Prod.fst := (alookup_eq_none_iff _ _).mp hc
    simp [List.nodup_append, h, hn]
  · rw [keys_map_update]
    exact h

lemma occCount_eq_zero (l : List SDCard) (n : String) (h : ¬ occNames l n) :
    occCount l n = 0 := by
  rw [occCount]
  have : l.filter (fun c => c.name = n) = [] := by
    rw [List.filter_eq_nil_iff]
    intro c hc
    simp only [decide_eq_true_eq]
    exact fun he => h ⟨c, hc, he⟩
  rw [this]
  rfl

lemma alookup_foldl_flattenInsert (l : List SDCard) :
    ∀ (m : List (String × ℕ)) (n : String),
      alookup n (l.foldl flattenInsert m) =
        if occNames l n then some ((alookup n m).getD 0 + occCount l n)
        else alookup n m := by
  induction l with
  | nil =>
    intro m n
    have : ¬ occNames ([] : List SDCard) n := by simp [occNames]
    rw [if_neg this]
    rfl
  | cons c cs ih =>
    intro m n
    rw [List.foldl_cons, ih, alookup_flattenInsert]
    by_cases hn : n = c.name
    · have hocc : occNames (c :: cs) n := ⟨c, List.mem_cons_self c cs, hn.symm⟩
      rw [if_pos hn, if_pos hocc]
      have hcount : occCount (c :: cs) n = c.count + occCount cs n := by
        simp [occCount, List.filter_cons, hn.symm]
      by_cases ho : occNames cs n
      · rw [if_pos ho, hcount]
        simp [add_assoc]
      · rw [if_neg ho, hcount, occCount_eq_zero cs n ho]
        simp
    · have hcount : occCount (c :: cs) n = occCount cs n := by
        have : ¬ c.name = n := fun h => hn h.symm
        simp [occCount, List.filter_cons, this]
      have hocc : occNames (c :: cs) n ↔ occNames cs n := by
        constructor
        · rintro ⟨x, hx, hxn⟩
          rcases List.mem_cons.mp hx with rfl | hx'
          · exact absurd hxn.symm hn
          · exact ⟨x, hx', hxn⟩
        · rintro ⟨x, hx, hxn⟩
          exact ⟨x, List.mem_cons_of_mem c hx, hxn⟩
      rw [if_neg hn]
      by_cases ho : occNames cs n
      · rw [if_pos ho, if_pos (hocc.mpr ho), hcount]
      · rw [if_neg ho, if_neg (fun hh => ho (hocc.mp hh))]

lemma nodup_foldl_flattenInsert (l : List SDCard) :
    ∀ m : List (String × ℕ), (m.map Prod.fst).Nodup →
      ((l.foldl flattenInsert m).map Prod.fst).Nodup := by
  induction l with
  | nil => intro m h; exact h
  | cons c cs ih =>
    intro m h
    rw [List.foldl_cons]
    exact ih _ (nodup_flattenInsert m c h)

lemma occNames_perm (l₁ l₂ : List SDCard) (h : List.Perm l₁ l₂) (n : String) :
    occNames l₁ n ↔ occNames l₂ n := by
  constructor <;> rintro ⟨c, hc, hn⟩
  · exact ⟨c, h.mem_iff.mp hc, hn⟩
  · exact ⟨c, h.mem_iff.mpr hc, hn⟩

lemma occCount_perm (l₁ l₂ : List SDCard) (h : List.Perm l₁ l₂) (n : String) :
    occCount l₁ n = occCount l₂ n := by
  rw [occCount, occCount]
  exact ((h.filter _).map SDCard.count).sum_eq

/-- Claim C8: flatten produces a map with at most one entry per distinct
card name; the amount of a name is the sum of the counts of all of its
occurrences across deck and sideboard (and a name with no occurrence is
absent); the resulting name-to-amount mapping is invariant under any
reordering of the input entries; flattening [{A,2},{B,1},{A,3}] yields
exactly {A:5, B:1}. -/
theorem flatten_merge (d : SealedDeck) :
    ((flatten d).map Prod.fst).Nodup ∧
    (∀ n, alookup n (flatten d) =
      if occNames (d.deck ++ d.sideboard) n
      then some (occCount (d.deck ++ d.sideboard) n) else none) ∧
    (∀ d₂ : SealedDeck,
      List.Perm (d.deck ++ d.sideboard) (d₂.deck ++ d₂.sideboard) →
      ∀ n, alookup n (flatten d₂) = alookup n (flatten d)) ∧
    (alookup "A" (flatten exDeckA) = some 5 ∧
     alookup "B" (flatten exDeckA) = some 1 ∧
     ∀ n, n ≠ "A" → n ≠ "B" → alookup n (flatten exDeckA) = none) := by
  have key : ∀ dd : SealedDeck, ∀ n, alookup n (flatten dd) =
      if occNames (dd.deck ++ dd.sideboard) n
      then some (occCount (dd.deck ++ dd.sideboard) n) else none := by
    intro dd n
    rw [flatten, alookup_foldl_flattenInsert]
    by_cases ho : occNames (dd.deck ++ dd.sideboard) n
    · rw [if_pos ho, if_pos ho]
      simp [alookup]
    · rw [if_neg ho, if_neg ho]
      rfl
  refine ⟨?_, key d, ?_, ?_, ?_, ?_⟩
  · rw [flatten]
    exact nodup_foldl_flattenInsert _ [] (by simp)
  · intro d₂ hperm n
    rw [key d, key d₂]
    by_cases ho : occNames (d.deck ++ d.sideboard) n
    · rw [if_pos ho, if_pos ((occNames_perm _ _ hperm n).mp ho),
        occCount_perm _ _ hperm n]
    · rw [if_neg ho, if_neg (fun hh => ho ((occNames_perm _ _ hperm n).mpr hh))]
  · rw [key exDeckA]
    simp [occNames, occCount, exDeckA, List.filter]
  · rw [key exDeckA]
    simp [occNames, occCount, exDeckA, List.filter]
  · intro n hA hB
    rw [key exDeckA]
    have : ¬ occNames (exDeckA.deck ++ exDeckA.sideboard) n := by
      rintro ⟨c, hc, hn⟩
      simp [exDeckA] at hc
      rcases hc with rfl | rfl | rfl
      · exact hA hn.symm
      · exact hB hn.symm
      · exact hA hn.symm
    rw [if_neg this]

theorem flatten_merge_witness :
    List.Perm (exDeckA.deck ++ exDeckA.sideboard)
      (exDeckB.deck ++ exDeckB.sideboard) ∧
    alookup "A" (flatten exDeckB) = alookup "A" (flatten exDeckA) :=
  ⟨by decide, (flatten_merge exDeckA).2.2.1 exDeckB (by decide) "A"⟩

lemma maxIndex_eq_min (n : ℕ) :
    (if n < deckStrengthCardsToConsider then n else deckStrengthCardsToConsider)
      = min deckStrengthCardsToConsider n := by
  split <;> omega

lemma strengths_of_insertionSort (L : List CardStrength) :
    (List.insertionSort csGE L).map CardStrength.strength
      = sortDescQ (L.map CardStrength.strength) := by
  apply List.eq_of_perm_of_sorted (r := geQ)
  · exact ((List.perm_insertionSort csGE L).map CardStrength.strength).trans
      (List.perm_insertionSort geQ (L.map CardStrength.strength)).symm
  · exact (List.sorted_insertionSort csGE L).map CardStrength.strength
      (fun _ _ h => h)
  · exact List.sorted_insertionSort geQ _

lemma deckStrength_eq_top_sum (cards : List DeckSlot)
    (strengthMap : String → Option ℚ) :
    deckStrength cards strengthMap =
      ((sortDescQ ((expandCardStrengths cards strengthMap).map
          CardStrength.strength)).take
        (min deckStrengthCardsToConsider
          (expandCardStrengths cards strengthMap).length)).sum := by
  rw [deckStrength, maxIndex_eq_min, List.map_take, strengths_of_insertionSort]

/-- Claim C2: the raw archetype strength computed by calculateStrength
equals: expand each pool slot into amount entries each carrying that
archetype's win rate for the card name (0 if the name is absent from the
map), sort those entries by win rate descending — any descending-sorted
permutation gives the same answer — and sum the win rates of the first
min(60, total-entries) of them. -/
theorem deckStrength_top_min60 (cards : List DeckSlot)
    (strengthMap : String → Option ℚ) (l : List CardStrength)
    (hperm : List.Perm l (expandCardStrengths cards strengthMap))
    (hsort : List.Sorted csGE l) :
    deckStrength cards strengthMap =
      ((l.take (min deckStrengthCardsToConsider
          (expandCardStrengths cards strengthMap).length)).map
        CardStrength.strength).sum := by
  rw [deckStrength_eq_top_sum, List.map_take]
  have heq : sortDescQ ((expandCardStrengths cards strengthMap).map
      CardStrength.strength) = l.map CardStrength.strength := by
    apply List.eq_of_perm_of_sorted (r := geQ)
    · exact (List.perm_insertionSort geQ _).trans
        ((hperm.symm).map CardStrength.strength)
    · exact List.sorted_insertionSort geQ _
    · exact hsort.map CardStrength.strength (fun _ _ h => h)
  rw [heq]

theorem deckStrength_top_min60_witness :
    List.Perm exSortedCS (expandCardStrengths exCards exSM) ∧
    List.Sorted csGE exSortedCS ∧
    deckStrength exCards exSM =
      ((exSortedCS.take (min deckStrengthCardsToConsider
          (expandCardStrengths exCards exSM).length)).map
        CardStrength.strength).sum :=
  ⟨List.Perm.refl exSortedCS, by simp [exSortedCS, List.pairwise_cons, csGE],
   deckStrength_top_min60 exCards exSM exSortedCS (List.Perm.refl exSortedCS)
     (by simp [exSortedCS, List.pairwise_cons, csGE])⟩

lemma take_sum_le_orderedInsert (x : ℚ) :
    ∀ (s : List ℚ) (k : ℕ), k ≤ s.length → List.Sorted geQ s →
      (s.take k).sum ≤ ((List.orderedInsert geQ x s).take k).sum := by
  intro s
  induction s with
  | nil =>
    intro k hk _
    have : k = 0 := Nat.le_zero.mp hk
    subst this
    simp
  | cons y ys ih =>
    intro k hk hs
    by_cases hxy : geQ x y
    · rw [List.orderedInsert, if_pos hxy]
      cases k with
      | zero => simp
      | succ j =>
        have hj : j < (y :: ys).length := hk
        obtain ⟨a, ha⟩ : ∃ a, (y :: ys)[j]? = some a :=
          ⟨_, List.getElem?_eq_getElem hj⟩
        have hax : a ≤ x := by
          have hmem : a ∈ y :: ys := List.getElem?_mem ha
          rcases List.mem_cons.mp hmem with rfl | hmem'
          · exact hxy
          · exact le_trans (List.rel_of_sorted_cons hs a hmem') hxy
        rw [List.take_succ, ha, List.take_succ_cons]
        simp only [List.sum_append, List.sum_cons, Option.toList_some,
          List.sum_cons, List.sum_nil]
        linarith
    · rw [List.orderedInsert, if_neg hxy]
      cases k with
      | zero => simp
      | succ j =>
        rw [List.take_succ_cons, List.take_succ_cons, List.sum_cons,
          List.sum_cons]
        have hj : j ≤ ys.length := Nat.succ_le_succ_iff.mp hk
        exact add_le_add_left (ih j hj hs.of_cons) y

/-- Claim C9: for every pool, every archetype win-rate map and every card
whose win rate in that map is strictly greater than 0, adding one more
copy of that card to the pool never decreases that archetype's raw
strength (the sum of the top min(60, total-entries) win rates). -/
theorem deckStrength_add_copy_mono (cards : List DeckSlot)
    (strengthMap : String → Option ℚ) (name : String) (r : ℚ)
    (hr : strengthMap name = some r) (hpos : 0 < r) :
    deckStrength cards strengthMap ≤
      deckStrength (cards ++ [⟨1, name⟩]) strengthMap := by
  have hexp : expandCardStrengths (cards ++ [⟨1, name⟩]) strengthMap
      = expandCardStrengths cards strengthMap
        ++ [(⟨name, r⟩ : CardStrength)] := by
    simp [expandCardStrengths, hr]
  rw [deckStrength_eq_top_sum, deckStrength_eq_top_sum, hexp]
  have hmap : ((expandCardStrengths cards strengthMap
        ++ [(⟨name, r⟩ : CardStrength)]).map
      CardStrength.strength)
      = (expandCardStrengths cards strengthMap).map CardStrength.strength
        ++ [r] := by
    simp
  rw [hmap, List.length_append]
  simp only [List.length_singleton]
  set qs := (expandCardStrengths cards strengthMap).map CardStrength.strength
    with hqs
  have hlen : (expandCardStrengths cards strengthMap).length = qs.length := by
    rw [hqs, List.length_map]
  rw [hlen]
  have hsorteq : sortDescQ (qs ++ [r])
      = List.orderedInsert geQ r (sortDescQ qs) := by
    apply List.eq_of_perm_of_sorted (r := geQ)
    · exact (List.perm_insertionSort geQ _).trans
        (((List.perm_append_singleton r qs).trans
          ((List.perm_insertionSort geQ qs).symm.cons r)).trans
          (List.perm_orderedInsert geQ r _).symm)
    · exact List.sorted_insertionSort geQ _
    · exact (List.sorted_insertionSort geQ qs).orderedInsert r _
  rw [hsorteq]
  have hslen : (sortDescQ qs).length = qs.length :=
    (List.perm_insertionSort geQ qs).length_eq
  rcases Nat.lt_or_ge qs.length deckStrengthCardsToConsider with hlt | hge
  · have h1 : min deckStrengthCardsToConsider qs.length = qs.length := by
      omega
    have h2 : min deckStrengthCardsToConsider (qs.length + 1)
        = qs.length + 1 := by
      rw [deckStrengthCardsToConsider] at hlt ⊢
      omega
    rw [h1, h2]
    rw [List.take_of_length_le (le_of_eq hslen)]
    have holen : (List.orderedInsert geQ r (sortDescQ qs)).length
        = qs.length + 1 := by
      rw [List.orderedInsert_length, hslen]
    rw [List.take_of_length_le (le_of_eq holen)]
    have hsum1 : (sortDescQ qs).sum = qs.sum :=
      (List.perm_insertionSort geQ qs).sum_eq
    have hsum2 : (List.orderedInsert geQ r (sortDescQ qs)).sum = r + qs.sum := by
      rw [(List.perm_orderedInsert geQ r _).sum_eq, List.sum_cons, hsum1]
    rw [hsum1, hsum2]
    linarith
  · have h1 : min deckStrengthCardsToConsider qs.length
        = deckStrengthCardsToConsider := by omega
    have h2 : min deckStrengthCardsToConsider (qs.length + 1)
        = deckStrengthCardsToConsider := by omega
    rw [h1, h2]
    exact take_sum_le_orderedInsert r (sortDescQ qs)
      deckStrengthCardsToConsider (by omega)
      (List.sorted_insertionSort geQ qs)

theorem deckStrength_add_copy_mono_witness :
    exSM "Shock" = some (13 / 20) ∧ (0 : ℚ) < 13 / 20 ∧
    deckStrength exCards exSM ≤
      deckStrength (exCards ++ [⟨1, "Shock"⟩]) exSM :=
  ⟨rfl, by norm_num,
   deckStrength_add_copy_mono exCards exSM "Shock" (13 / 20) rfl (by norm_num)⟩

lemma expandCardStrengths_nonneg (cards : List DeckSlot)
    (strengthMap : String → Option ℚ)
    (h : ∀ c rr, strengthMap c = some rr → 0 ≤ rr) :
    ∀ cs ∈ expandCardStrengths cards strengthMap, 0 ≤ cs.strength := by
  intro cs hcs
  rw [expandCardStrengths] at hcs
  obtain ⟨sub, hsub, hmem⟩ := List.mem_flatten.mp hcs
  obtain ⟨c, _, rfl⟩ := List.mem_map.mp hsub
  have := List.eq_of_mem_replicate hmem
  subst this
  rcases h' : strengthMap c.cardName with _ | rr
  · simp [h']
  · simp only [h', Option.getD_some]
    exact h c.cardName rr h'

lemma deckStrength_nonneg (cards : List DeckSlot)
    (strengthMap : String → Option ℚ)
    (h : ∀ c rr, strengthMap c = some rr → 0 ≤ rr) :
    0 ≤ deckStrength cards strengthMap := by
  rw [deckStrength_eq_top_sum]
  apply List.sum_nonneg
  intro x hx
  have hx1 : x ∈ sortDescQ ((expandCardStrengths cards strengthMap).map
      CardStrength.strength) := List.mem_of_mem_take hx
  have hx2 : x ∈ (expandCardStrengths cards strengthMap).map
      CardStrength.strength :=
    (List.perm_insertionSort geQ _).mem_iff.mp hx1
  obtain ⟨cs, hcs, rfl⟩ := List.mem_map.mp hx2
  exact expandCardStrengths_nonneg cards strengthMap h cs hcs

lemma sortDescQ_pad (l : List ℚ) (p : ℕ) (hnn : ∀ x ∈ l, 0 ≤ x) :
    sortDescQ (List.replicate p 0 ++ l) = sortDescQ l ++ List.replicate p 0 := by
  apply List.eq_of_perm_of_sorted (r := geQ)
  · exact (List.perm_insertionSort geQ _).trans
      (List.perm_append_comm.trans
        ((List.perm_insertionSort geQ l).symm.append_right _))
  · exact List.sorted_insertionSort geQ _
  · rw [List.Sorted, List.pairwise_append]
    refine ⟨List.sorted_insertionSort geQ l, ?_, ?_⟩
    · exact List.pairwise_replicate.mpr (Or.inr (le_refl (0 : ℚ)))
    · intro a ha b hb
      have hb0 : b = 0 := List.eq_of_mem_replicate hb
      have ha0 : 0 ≤ a :=
        hnn a ((List.perm_insertionSort geQ l).mem_iff.mp ha)
      rw [hb0]
      exact ha0

lemma deckStrengthsList_length (cards : List DeckSlot)
    (cardStrengthByDeck : String → String → Option ℚ) :
    (deckStrengthsList cards cardStrengthByDeck).length = 10 := by
  rw [deckStrengthsList, List.length_map]
  decide

lemma deckStrengthsList_nonneg (cards : List DeckSlot)
    (cardStrengthByDeck : String → String → Option ℚ)
    (hnn : ∀ d c rr, cardStrengthByDeck d c = some rr → 0 ≤ rr) :
    ∀ x ∈ (deckStrengthsList cards cardStrengthByDeck).map Prod.snd, 0 ≤ x := by
  intro x hx
  obtain ⟨pr, hpr, rfl⟩ := List.mem_map.mp hx
  rw [deckStrengthsList] at hpr
  obtain ⟨deckId, _, rfl⟩ := List.mem_map.mp hpr
  exact deckStrength_nonneg cards (cardStrengthByDeck deckId)
    (fun c rr h => hnn deckId c rr h)

/-- The first three reads of the sorted vector see the three largest raw
archetype strengths: with non-negative win rates the length-10 zero
padding sorts entirely behind the raw strengths. -/
lemma strength_pad_getD (cards : List DeckSlot)
    (cardStrengthByDeck : String → String → Option ℚ)
    (hnn : ∀ d c rr, cardStrengthByDeck d c = some rr → 0 ≤ rr)
    (i : ℕ) (hi : i < 3) :
    (sortDescQ (strengthVector cards cardStrengthByDeck)).getD i 0 =
      (sortDescQ ((deckStrengthsList cards cardStrengthByDeck).map
        Prod.snd)).getD i 0 := by
  rw [strengthVector]
  rw [sortDescQ_pad _ _ (deckStrengthsList_nonneg cards cardStrengthByDeck hnn)]
  apply List.getD_append
  have h1 : ((deckStrengthsList cards cardStrengthByDeck).map Prod.snd).length
      = 10 := by
    rw [List.length_map, deckStrengthsList_length]
  have h2 : (sortDescQ ((deckStrengthsList cards cardStrengthByDeck).map
      Prod.snd)).length = 10 := by
    rw [sortDescQ, (List.perm_insertionSort geQ _).length_eq, h1]
  omega

lemma exMap_nonneg : ∀ d c rr, exMap d c = some rr → 0 ≤ rr := by
  intro d c rr h
  rw [exMap] at h
  split at h
  · cases h
    norm_num
  · cases h

/-- Claim C10: calculateStrength's accesses v[0], v[1], v[2] are always in
bounds: getDecks starts with the ten fixed 2-colour archetypes for every
set code, so deckStrengths has at least ten entries; the vector v is
allocated with length len(deckStrengths) zeroes before the values are
appended, so it holds at least twenty elements; and with non-negative win
rates the zero padding cannot displace any raw strength from the top
three reads of the sorted vector. -/
theorem calculateStrength_safety (setCode : String) (cards : List DeckSlot)
    (cardStrengthByDeck : String → String → Option ℚ) :
    (getDecks setCode).take 10 = mtg2CDecks ∧
    10 ≤ (getDecks setCode).length ∧
    10 ≤ (deckStrengthsList cards cardStrengthByDeck).length ∧
    (strengthVector cards cardStrengthByDeck).length =
      2 * (deckStrengthsList cards cardStrengthByDeck).length ∧
    20 ≤ (strengthVector cards cardStrengthByDeck).length ∧
    3 ≤ (sortDescQ (strengthVector cards cardStrengthByDeck)).length ∧
    ((∀ d c rr, cardStrengthByDeck d c = some rr → 0 ≤ rr) →
      ∀ i, i < 3 →
        (sortDescQ (strengthVector cards cardStrengthByDeck)).getD i 0 =
          (sortDescQ ((deckStrengthsList cards cardStrengthByDeck).map
            Prod.snd)).getD i 0) := by
  have hds : (deckStrengthsList cards cardStrengthByDeck).length = 10 :=
    deckStrengthsList_length cards cardStrengthByDeck
  have hsv : (strengthVector cards cardStrengthByDeck).length =
      2 * (deckStrengthsList cards cardStrengthByDeck).length := by
    rw [strengthVector, List.length_append, List.length_replicate,
      List.length_map]
    omega
  refine ⟨?_, ?_, by omega, hsv, by omega, ?_,
    fun hnn i hi => strength_pad_getD cards cardStrengthByDeck hnn i hi⟩
  · rw [getDecks]
    split <;> decide
  · rw [getDecks]
    split <;> decide
  · rw [sortDescQ, (List.perm_insertionSort geQ _).length_eq]
    omega

theorem calculateStrength_safety_witness :
    (getDecks "XYZ").take 10 = mtg2CDecks ∧
    (sortDescQ (strengthVector exPool exMap)).getD 0 0 =
      (sortDescQ ((deckStrengthsList exPool exMap).map Prod.snd)).getD 0 0 :=
  ⟨(calculateStrength_safety "XYZ" exPool exMap).1,
   (calculateStrength_safety "XYZ" exPool exMap).2.2.2.2.2.2
     exMap_nonneg 0 (by omega)⟩

/-- Claim C1 (amended): for every pool, with non-negative win rates (as
the performance data provides), the final strength score equals the three
largest raw archetype strengths, sorted descending, combined as
(best + 0.8·second + 0.4·third) × 100 and then truncated toward zero by
Go's int() conversion — not rounded to the nearest integer. -/
theorem calculateStrength_trunc_top3 (cards : List DeckSlot)
    (cardStrengthByDeck : String → String → Option ℚ)
    (hnn : ∀ d c rr, cardStrengthByDeck d c = some rr → 0 ≤ rr) :
    calculateStrength cards cardStrengthByDeck =
      goFloatToInt
        (((sortDescQ ((deckStrengthsList cards cardStrengthByDeck).map
            Prod.snd)).getD 0 0
          + (sortDescQ ((deckStrengthsList cards cardStrengthByDeck).map
            Prod.snd)).getD 1 0 * (8 / 10 : ℚ)
          + (sortDescQ ((deckStrengthsList cards cardStrengthByDeck).map
            Prod.snd)).getD 2 0 * (4 / 10 : ℚ)) * 100) := by
  rw [calculateStrength]
  rw [strength_pad_getD cards cardStrengthByDeck hnn 0 (by omega),
    strength_pad_getD cards cardStrengthByDeck hnn 1 (by omega),
    strength_pad_getD cards cardStrengthByDeck hnn 2 (by omega)]

theorem calculateStrength_trunc_top3_witness :
    (∀ d c rr, exMap d c = some rr → 0 ≤ rr) ∧
    calculateStrength exPool exMap =
      goFloatToInt
        (((sortDescQ ((deckStrengthsList exPool exMap).map Prod.snd)).getD 0 0
          + (sortDescQ ((deckStrengthsList exPool exMap).map
            Prod.snd)).getD 1 0 * (8 / 10 : ℚ)
          + (sortDescQ ((deckStrengthsList exPool exMap).map
            Prod.snd)).getD 2 0 * (4 / 10 : ℚ)) * 100) :=
  ⟨exMap_nonneg, calculateStrength_trunc_top3 exPool exMap exMap_nonneg⟩

lemma exDecks : getDecks currentSet = mtg2CDecks := rfl

lemma exDeckStrength (d : String) :
    deckStrength exPool (exMap d) = if d = "WU" then 21 / 32 else 0 := by
  by_cases hd : d = "WU"
  · subst hd
    rw [if_pos rfl]
    rw [deckStrength]
    simp [expandCardStrengths, exPool, exMap, List.insertionSort,
      List.orderedInsert, deckStrengthCardsToConsider]
  · rw [if_neg hd]
    rw [deckStrength]
    simp [expandCardStrengths, exPool, exMap, hd, List.insertionSort,
      List.orderedInsert, deckStrengthCardsToConsider]

lemma exValues : (deckStrengthsList exPool exMap).map Prod.snd =
    [(21 : ℚ) / 32, 0, 0, 0, 0, 0, 0, 0, 0, 0] := by
  rw [deckStrengthsList, exDecks, mtg2CDecks]
  simp [exDeckStrength]

lemma exSortedVals : sortDescQ [(21 : ℚ) / 32, 0, 0, 0, 0, 0, 0, 0, 0, 0] =
    [(21 : ℚ) / 32, 0, 0, 0, 0, 0, 0, 0, 0, 0] := by
  apply List.eq_of_perm_of_sorted (r := geQ) (List.perm_insertionSort geQ _)
    (List.sorted_insertionSort geQ _)
  norm_num [List.pairwise_cons, geQ]

lemma exPadSorted : sortDescQ (strengthVector exPool exMap) =
    [(21 : ℚ) / 32, 0, 0, 0, 0, 0, 0, 0, 0, 0] ++ List.replicate 10 0 := by
  rw [strengthVector]
  rw [show (deckStrengthsList exPool exMap).length = 10 from
    deckStrengthsList_length exPool exMap, exValues]
  rw [sortDescQ_pad _ 10 (by norm_num), exSortedVals]

/-- Claim C1 fails as literally stated: the final conversion is Go's
truncating int(), not a round to the nearest integer.  For this pool the
weighted top-3 combination is 65.625 (a value exactly representable as a
binary float): the code returns 65 while rounding to nearest gives 66. -/
theorem calculateStrength_truncates_not_rounds :
    calculateStrength exPool exMap = 65 ∧
    calculateStrengthRoundedSpec exPool exMap = 66 := by
  constructor
  · rw [calculateStrength, exPadSorted]
    simp only [List.cons_append, List.getD_cons_zero, List.getD_cons_succ]
    rw [goFloatToInt, if_pos (by norm_num)]
    norm_num [Int.floor_eq_iff]
  · rw [calculateStrengthRoundedSpec, exPadSorted]
    simp only [List.cons_append, List.getD_cons_zero, List.getD_cons_succ]
    rw [round_eq]
    norm_num [Int.floor_eq_iff]
